import Mathlib

/-!
Verification development for the Lyft RP coordination bot
(`src/main.py` and `src/Main.py`).

Each interactive view of the bot is embedded as a pure state machine.
This is faithful because every handler performs its decision and its
state mutation inside a single unsuspended span of the event loop
(`ClaimView.claim` additionally holds `self._lock` across the whole
check-and-set), so concurrent button presses are serialized and each
press acts as one atomic step on the view state.

State components mirror the Python object attributes together with the
`Status` field of the posted embed (which is the only place the request
status is recorded).
-/

/-- Status shown on a ride request message: the `Status` embed field of
`ClaimView`, which moves Unclaimed → Claimed/Ongoing → Completed. -/
inductive RideStatus where
  | unclaimed
  | claimed
  | completed
deriving DecidableEq

/-- State of one `ClaimView` (src/main.py lines 207-214): the requester id,
`claimed_by`, the embed status, and the `disabled` flags of the two
buttons. `src/Main.py` carries the same data (`claimed` there is
`claimed_by_user_id is not None`). -/
structure RideState where
  requesterId : ℕ
  claimedBy : Option ℕ
  status : RideStatus
  claimDisabled : Bool
  endDisabled : Bool
deriving DecidableEq

/-- Result of a claim press (src/main.py lines 216-258). -/
inductive ClaimRes where
  | ok
  | unauthorized
  | alreadyClaimed
deriving DecidableEq

/-- Result of an End Ride press (src/main.py lines 260-266). -/
inductive EndRes where
  | ok
  | notClaimed
  | wrongActor
deriving DecidableEq

/-- A freshly posted ride request: status `🟡 Unclaimed`, no claimant,
both buttons enabled (src/main.py lines 391, 396). -/
def initRide (requester : ℕ) : RideState :=
  ⟨requester, none, .unclaimed, false, false⟩

/-- `ClaimView.claim` (src/main.py lines 216-258, src/Main.py lines 70-119):
under the view lock, reject a non-driver, reject if `claimed_by` is already
set, otherwise set `claimed_by` to the actor, disable the Claim button and
move the embed status to Claimed.  The role check is the opaque capability
predicate `has_driver_role`, passed in as a boolean. -/
def claim (s : RideState) (actor : ℕ) (hasDriverRole : Bool) : RideState × ClaimRes :=
  if hasDriverRole = false then (s, .unauthorized)
  else if s.claimedBy.isSome then (s, .alreadyClaimed)
  else ({ s with claimedBy := some actor, status := .claimed, claimDisabled := true }, .ok)

/-- `ClaimView.end_ride` (src/main.py lines 260-360, src/Main.py lines
121-158): reject if nothing is claimed, reject any actor other than the
claimant, otherwise disable the End button and move the embed status to
Completed.  Note that the handler state records no completion flag:
`claimed_by` is left set and nothing else is checked. -/
def end_ride (s : RideState) (actor : ℕ) : RideState × EndRes :=
  match s.claimedBy with
  | none => (s, .notClaimed)
  | some d =>
    if actor ≠ d then (s, .wrongActor)
    else ({ s with status := .completed, endDisabled := true }, .ok)

/-- Serialized execution of a batch of claim presses: the view lock admits
the handlers one at a time, in lock-acquisition order; each attempt is a
pair (actor id, driver capability). -/
def runClaims (s : RideState) : List (ℕ × Bool) → RideState × List ClaimRes
  | [] => (s, [])
  | (a, c) :: rest =>
    let p := claim s a c
    let q := runClaims p.1 rest
    (q.1, p.2 :: q.2)

/-- An inbound action on one ride request: a Claim press (actor id and
driver capability) or an End Ride press (actor id). -/
inductive RideAct where
  | press_claim (actor : ℕ) (cap : Bool)
  | press_end (actor : ℕ)

/-- Apply one action to the view state, discarding the reply. -/
def applyAct (s : RideState) : RideAct → RideState
  | .press_claim a c => (claim s a c).1
  | .press_end a => (end_ride s a).1

/-- Run a serialized sequence of actions on one ride request. -/
def runActs (s : RideState) (acts : List RideAct) : RideState :=
  acts.foldl applyAct s

/-- Numeric rank of the status along Unclaimed → Claimed → Completed. -/
def statusIdx : RideStatus → ℕ
  | .unclaimed => 0
  | .claimed => 1
  | .completed => 2

/-- States that actually arise for a posted ride request: whenever nobody
has claimed it, its status is still Unclaimed.  (Holds of `initRide` and
is preserved by every action; rules out unreachable states such as a
Completed request with no claimant.) -/
def RideInv (s : RideState) : Prop :=
  s.claimedBy = none → s.status = .unclaimed

/-- The stored decision of a reviewable request: the `Status` embed field
of `ApproveDenyView`, Pending until a reviewer finalizes it. -/
inductive Decision where
  | pending
  | accepted
  | denied
deriving DecidableEq

/-- Outcome chosen by a reviewer pressing Accept or Deny. -/
inductive Outcome where
  | accepted
  | denied
deriving DecidableEq

/-- The decision recorded by `ApproveDenyView._finish` for an outcome. -/
def decisionOf : Outcome → Decision
  | .accepted => .accepted
  | .denied => .denied

/-- Result of an Accept/Deny press (src/main.py lines 440-447). -/
inductive DecideRes where
  | ok
  | unauthorized
  | alreadyFinalized
deriving DecidableEq

/-- State of one `ApproveDenyView` (src/main.py lines 433-438): the
`finalized` flag plus the decision recorded in the message's `Status`
field. -/
structure ReviewState where
  finalized : Bool
  decision : Decision
deriving DecidableEq

/-- A freshly posted allocation/permission request: not finalized,
status `🟡 Pending` (src/main.py lines 532, 572). -/
def initReview : ReviewState := ⟨false, .pending⟩

/-- `ApproveDenyView.approve`/`deny` through `_guard` and `_finish`
(src/main.py lines 440-498): a non-reviewer is rejected first, then an
already-finalized request is rejected, otherwise the decision is set and
the view finalized in the same step. -/
def decideReq (s : ReviewState) (isRev : Bool) (o : Outcome) : ReviewState × DecideRes :=
  if isRev = false then (s, .unauthorized)
  else if s.finalized = true then (s, .alreadyFinalized)
  else (⟨true, decisionOf o⟩, .ok)

/-- Run a serialized sequence of decide presses (reviewer capability and
chosen outcome). -/
def runDecides (s : ReviewState) (ops : List (Bool × Outcome)) : ReviewState :=
  ops.foldl (fun t p => (decideReq t p.1 p.2).1) s

/-- Result of a rating button press (src/main.py lines 167-171). -/
inductive SubmitRes where
  | ok
  | notRider
  | duplicate
deriving DecidableEq

/-- State of one `RatingView` (src/main.py lines 123-130): the rider who
may rate, the one-shot `submitted` flag, and the score recorded in the
ride log's `Rating` field (none until a submission succeeds). -/
structure RatingState where
  riderId : ℕ
  submitted : Bool
  recorded : Option ℕ
deriving DecidableEq

/-- A freshly posted rating prompt for a completed ride. -/
def initRating (rider : ℕ) : RatingState := ⟨rider, false, none⟩

/-- `RatingView._submit` (src/main.py lines 167-193): any actor other
than the rider is turned away; a second press after `submitted` is
rejected; otherwise the flag is set and the score recorded. -/
def submit (s : RatingState) (actor score : ℕ) : RatingState × SubmitRes :=
  if actor ≠ s.riderId then (s, .notRider)
  else if s.submitted = true then (s, .duplicate)
  else ({ s with submitted := true, recorded := some score }, .ok)

/-- Run a serialized sequence of submissions (actor, score). -/
def runSubmits (s : RatingState) (ops : List (ℕ × ℕ)) : RatingState :=
  ops.foldl (fun t p => (submit t p.1 p.2).1) s

/-- The five rating buttons `b1`..`b5` of `RatingView` (src/main.py lines
195-204) — the only entry points to `_submit`. -/
inductive RatingButton where
  | b1
  | b2
  | b3
  | b4
  | b5

/-- The constant score each button hands to `_submit`. -/
def buttonScore : RatingButton → ℕ
  | .b1 => 1
  | .b2 => 2
  | .b3 => 3
  | .b4 => 4
  | .b5 => 5

/-- A press of one of the five buttons: the public rating interface. -/
def pressButton (s : RatingState) (actor : ℕ) (b : RatingButton) : RatingState × SubmitRes :=
  submit s actor (buttonScore b)

/-- Run a serialized sequence of button presses (actor, button). -/
def runPresses (s : RatingState) (ops : List (ℕ × RatingButton)) : RatingState :=
  ops.foldl (fun t p => (pressButton t p.1 p.2).1) s

/-- Vote record of one suggestion: the entry of the module-level `_votes`
dictionary for its message id (src/main.py line 831). -/
structure VoteRec where
  up : Finset ℕ
  down : Finset ℕ
deriving DecidableEq

/-- The two vote sides. -/
inductive VoteSide where
  | up
  | down

/-- A fresh suggestion's record: both sides empty (src/main.py line 913). -/
def initVotes : VoteRec := ⟨∅, ∅⟩

/-- `SuggestionView._toggle` (src/main.py lines 849-869), under
`_votes_lock`: first `discard` the user from the opposite side, then
remove them from the chosen side if present, else add them. -/
def toggle (r : VoteRec) (side : VoteSide) (uid : ℕ) : VoteRec :=
  match side with
  | .up =>
    let d := r.down.erase uid
    if uid ∈ r.up then ⟨r.up.erase uid, d⟩ else ⟨insert uid r.up, d⟩
  | .down =>
    let u := r.up.erase uid
    if uid ∈ r.down then ⟨u, r.down.erase uid⟩ else ⟨u, insert uid r.down⟩

/-- Run a serialized sequence of vote toggles (side, user id). -/
def runToggles (r : VoteRec) (ops : List (VoteSide × ℕ)) : VoteRec :=
  ops.foldl (fun t p => toggle t p.1 p.2) r

/-- Modelled from the spec: a ride entry of a `ProfileRecord.history`
(spec §3: "date, counterpart id, free-form fields").  No ProfileStore
exists under `src/`; spec §4.4 and §6 are the sole description. -/
structure RideEntry where
  date : String
  counterpart : ℕ
  info : String
deriving DecidableEq

/-- Modelled from the spec: a `ProfileRecord` (spec §3) — role, the
append-only `history` and `ratings` sequences, the mutable `flag` and
the append-only `notes`.  The `aggregate` is derived, never stored
(spec §3: "never stored independently of its source list"). -/
structure ProfileRecord where
  role : String
  history : List RideEntry
  ratings : List ℕ
  flag : Option String
  notes : List String
deriving DecidableEq

/-- Modelled from the spec: the in-memory store document, keyed by
subject id (spec §6: a single document mapping ids to records). -/
def ProfileStore := List (ℕ × ProfileRecord)

/-- Modelled from the spec: the derived aggregate — count and mean of
the ratings list, recomputed from the list (spec §3, glossary). -/
structure Agg where
  count : ℕ
  mean : ℚ
deriving DecidableEq

/-- Recompute the aggregate from the ratings list. -/
def aggregate (r : ProfileRecord) : Agg :=
  ⟨r.ratings.length,
   if r.ratings.length = 0 then 0 else (r.ratings.sum : ℚ) / (r.ratings.length : ℚ)⟩

/-- A record for a subject never seen before (spec §4.4:
`get_or_create` creates lazily with empty collections). -/
def emptyRecord (role : String) : ProfileRecord := ⟨role, [], [], none, []⟩

/-- Record stored for a subject id, if any. -/
def lookupRecord (st : ProfileStore) (x : ℕ) : Option ProfileRecord :=
  match st with
  | [] => none
  | (y, r) :: rest => if y = x then some r else lookupRecord rest x

/-- Modelled from the spec: the in-memory half of a mutating call —
get-or-create the subject's record and update it in place in the
document (spec §4.4: "a full read-modify-persist cycle"). -/
def updateRecord (st : ProfileStore) (x : ℕ) (role : String)
    (f : ProfileRecord → ProfileRecord) : ProfileStore :=
  match st with
  | [] => [(x, f (emptyRecord role))]
  | (y, r) :: rest =>
    if y = x then (y, f r) :: rest else (y, r) :: updateRecord rest x role f

/-- Modelled from the spec: `append_history(subject_id, entry)`
(spec §4.4) — append one ride entry to the subject's history. -/
def appendHistory (st : ProfileStore) (x : ℕ) (role : String) (e : RideEntry) : ProfileStore :=
  updateRecord st x role (fun r => { r with history := r.history ++ [e] })

/-- Modelled from the spec: `append_rating` (spec §4.4). -/
def appendRating (st : ProfileStore) (x : ℕ) (role : String) (k : ℕ) : ProfileStore :=
  updateRecord st x role (fun r => { r with ratings := r.ratings ++ [k] })

/-- Serialized token: one atom of the on-disk document encoding. -/
inductive Tok where
  | tnat (n : ℕ)
  | tstr (s : String)
deriving DecidableEq

/-- Serialize one ride entry. -/
def encEntry (e : RideEntry) : List Tok :=
  [.tstr e.date, .tnat e.counterpart, .tstr e.info]

/-- Serialize a length-prefixed list of ride entries. -/
def encEntries (l : List RideEntry) : List Tok :=
  .tnat l.length :: l.foldr (fun e acc => encEntry e ++ acc) []

/-- Serialize a length-prefixed list of naturals. -/
def encNats (l : List ℕ) : List Tok :=
  .tnat l.length :: l.map .tnat

/-- Serialize a length-prefixed list of strings. -/
def encStrs (l : List String) : List Tok :=
  .tnat l.length :: l.map .tstr

/-- Serialize an optional string with a presence tag. -/
def encOptStr : Option String → List Tok
  | none => [.tnat 0]
  | some s => [.tnat 1, .tstr s]

/-- Serialize one profile record. -/
def encRecord (r : ProfileRecord) : List Tok :=
  .tstr r.role :: (encEntries r.history ++ encNats r.ratings ++ encOptStr r.flag ++ encStrs r.notes)

/-- Serialize one keyed record of the document. -/
def encPair (p : ℕ × ProfileRecord) : List Tok :=
  .tnat p.1 :: encRecord p.2

/-- Modelled from the spec: serialize the *entire* document
(spec §4.4(c)). -/
def encStore (st : ProfileStore) : List Tok :=
  .tnat st.length :: st.foldr (fun p acc => encPair p ++ acc) []

/-- Read one natural token. -/
def decNat : List Tok → Option (ℕ × List Tok)
  | .tnat n :: r => some (n, r)
  | _ => none

/-- Read one string token. -/
def decStr : List Tok → Option (String × List Tok)
  | .tstr s :: r => some (s, r)
  | _ => none

/-- Read one ride entry. -/
def decEntry (ts : List Tok) : Option (RideEntry × List Tok) := do
  let (d, ts1) ← decStr ts
  let (c, ts2) ← decNat ts1
  let (i, ts3) ← decStr ts2
  pure (⟨d, c, i⟩, ts3)

/-- Read a counted list of ride entries. -/
def decEntries : ℕ → List Tok → Option (List RideEntry × List Tok)
  | 0, ts => some ([], ts)
  | n + 1, ts => do
    let (e, ts1) ← decEntry ts
    let (l, ts2) ← decEntries n ts1
    pure (e :: l, ts2)

/-- Read a counted list of naturals. -/
def decNats : ℕ → List Tok → Option (List ℕ × List Tok)
  | 0, ts => some ([], ts)
  | n + 1, ts => do
    let (k, ts1) ← decNat ts
    let (l, ts2) ← decNats n ts1
    pure (k :: l, ts2)

/-- Read a counted list of strings. -/
def decStrs : ℕ → List Tok → Option (List String × List Tok)
  | 0, ts => some ([], ts)
  | n + 1, ts => do
    let (s, ts1) ← decStr ts
    let (l, ts2) ← decStrs n ts1
    pure (s :: l, ts2)

/-- Read an optional string. -/
def decOptStr (ts : List Tok) : Option (Option String × List Tok) := do
  let (tag, ts1) ← decNat ts
  match tag with
  | 0 => pure (none, ts1)
  | 1 => do
    let (s, ts2) ← decStr ts1
    pure (some s, ts2)
  | _ => none

/-- Read one profile record. -/
def decRecord (ts : List Tok) : Option (ProfileRecord × List Tok) := do
  let (role, ts1) ← decStr ts
  let (nh, ts2) ← decNat ts1
  let (h, ts3) ← decEntries nh ts2
  let (nr, ts4) ← decNat ts3
  let (ra, ts5) ← decNats nr ts4
  let (fl, ts6) ← decOptStr ts5
  let (nn, ts7) ← decNat ts6
  let (no, ts8) ← decStrs nn ts7
  pure (⟨role, h, ra, fl, no⟩, ts8)

/-- Read a counted list of keyed records. -/
def decPairs : ℕ → List Tok → Option (List (ℕ × ProfileRecord) × List Tok)
  | 0, ts => some ([], ts)
  | n + 1, ts => do
    let (x, ts1) ← decNat ts
    let (r, ts2) ← decRecord ts1
    let (l, ts3) ← decPairs n ts2
    pure ((x, r) :: l, ts3)

/-- Modelled from the spec: deserialize a document file, demanding the
whole file be consumed (spec §6: the file "is read fully into memory"). -/
def decStore (ts : List Tok) : Option ProfileStore := do
  let (n, ts1) ← decNat ts
  let (l, ts2) ← decPairs n ts1
  match ts2 with
  | [] => pure l
  | _ => none

/-- Modelled from the spec: filesystem state of the store — the
canonical document file and the optional temporary file (spec §4.4). -/
structure FS where
  canonical : List Tok
  temp : Option (List Tok)
deriving DecidableEq

/-- Modelled from the spec: step (c) of the durability algorithm —
serialize the whole document into the temporary file.  The canonical
file is untouched. -/
def writeTemp (fs : FS) (d : List Tok) : FS := ⟨fs.canonical, some d⟩

/-- Modelled from the spec: step (d) — atomically rename the temporary
file over the canonical file. -/
def renameTemp (fs : FS) : FS :=
  match fs.temp with
  | some d => ⟨d, none⟩
  | none => fs

/-- Modelled from the spec: a full persist of the in-memory document:
write the serialization to the temporary file, then rename it over the
canonical file, all under the store-wide lock (spec §4.4(a)-(e)). -/
def persist (fs : FS) (st : ProfileStore) : FS :=
  renameTemp (writeTemp fs (encStore st))

/-- Modelled from the spec: reload the store from disk at restart
(spec §6). -/
def reload (fs : FS) : Option ProfileStore := decStore fs.canonical

/-!  Theorems. -/

/-- A claim attempt on an already-claimed request leaves the state alone
and answers AlreadyClaimed to a driver, Unauthorized to anyone else. -/
lemma claim_of_claimed (s : RideState) (d : ℕ) (h : s.claimedBy = some d)
    (a : ℕ) (c : Bool) :
    claim s a c = (s, if c = true then ClaimRes.alreadyClaimed else ClaimRes.unauthorized) := by
  cases c <;> simp [claim, h]

/-- Once a request is claimed, any batch of further claim attempts
leaves the state alone and answers each attempt individually. -/
lemma runClaims_of_claimed (s : RideState) (d : ℕ) (h : s.claimedBy = some d)
    (l : List (ℕ × Bool)) :
    runClaims s l =
      (s, l.map fun p => if p.2 = true then ClaimRes.alreadyClaimed else ClaimRes.unauthorized) := by
  induction l with
  | nil => simp [runClaims]
  | cons p rest ih =>
    obtain ⟨a, c⟩ := p
    simp [runClaims, claim_of_claimed s d h a c, ih]

/-- When every attempt in a batch holds the driver capability, the
per-attempt answers on a claimed request are all AlreadyClaimed. -/
lemma map_res_all_claimed (l : List (ℕ × Bool)) (h : ∀ p ∈ l, p.2 = true) :
    (l.map fun p => if p.2 = true then ClaimRes.alreadyClaimed else ClaimRes.unauthorized) =
      List.replicate l.length ClaimRes.alreadyClaimed := by
  induction l with
  | nil => simp
  | cons p r ih =>
    have hp := h p (List.mem_cons_self p r)
    have hr : ∀ q ∈ r, q.2 = true := fun q hq => h q (List.mem_cons_of_mem p hq)
    simp [hp, ih hr, List.replicate_succ]

/-- Claim C1: for an unclaimed request and N ≥ 2 claim attempts by
distinct drivers, serialized by the view lock, exactly one attempt — the
first to take the lock — returns Ok, every other attempt is answered
AlreadyClaimed, and `claimed_by` ends up equal to the winner's id; in
particular no run records two successful claims of one request. -/
theorem claim_single_winner (s : RideState) (w : ℕ) (rest : List (ℕ × Bool))
    (hopen : s.claimedBy = none)
    (hcap : ∀ p ∈ rest, p.2 = true)
    (hN : 1 ≤ rest.length)
    (hdistinct : (w :: rest.map Prod.fst).Nodup) :
    (runClaims s ((w, true) :: rest)).2 =
      ClaimRes.ok :: List.replicate rest.length ClaimRes.alreadyClaimed ∧
    (runClaims s ((w, true) :: rest)).1.claimedBy = some w := by
  have h1 : claim s w true =
      ({ s with claimedBy := some w, status := .claimed, claimDisabled := true }, .ok) := by
    simp [claim, hopen]
  have h2 := runClaims_of_claimed
    ({ s with claimedBy := some w, status := .claimed, claimDisabled := true }) w rfl rest
  constructor
  · simp [runClaims, h1, h2, map_res_all_claimed rest hcap]
  · simp [runClaims, h1, h2]

/-- Witness for C1: two drivers race for a fresh request; driver 2 wins,
driver 3 is told the ride is already claimed. -/
theorem claim_single_winner_witness :
    (runClaims (initRide 1) [(2, true), (3, true)]).2 =
      [ClaimRes.ok, ClaimRes.alreadyClaimed] ∧
    (runClaims (initRide 1) [(2, true), (3, true)]).1.claimedBy = some 2 := by
  have h := claim_single_winner (initRide 1) 2 [(3, true)] rfl
    (by decide) (by decide) (by decide)
  simpa using h

/-- Claim C4: a claim attempt answers Unauthorized exactly to actors
without the driver capability, AlreadyClaimed to a driver when
`claimed_by` is already set, and Ok exactly when the capability check
passes and the request is unclaimed — in which case, in the same atomic
step, `claimed_by` becomes the actor's id and the status advances to
Claimed (the whole check-and-set is one pure function, mirroring the
handler body held under the view lock). -/
theorem claim_result_spec (s : RideState) (a : ℕ) (cap : Bool) :
    (cap = false → claim s a cap = (s, ClaimRes.unauthorized)) ∧
    (cap = true → s.claimedBy ≠ none → claim s a cap = (s, ClaimRes.alreadyClaimed)) ∧
    ((claim s a cap).2 = ClaimRes.ok ↔ cap = true ∧ s.claimedBy = none) ∧
    (cap = true → s.claimedBy = none →
      claim s a cap =
        ({ s with claimedBy := some a, status := .claimed, claimDisabled := true },
          ClaimRes.ok)) := by
  refine ⟨fun h => by simp [claim, h], fun h1 h2 => ?_, ?_,
    fun h1 h2 => by simp [claim, h1, h2]⟩
  · cases hx : s.claimedBy with
    | none => exact absurd hx h2
    | some d => simp [claim, h1, hx]
  · cases cap <;> cases hx : s.claimedBy <;> simp [claim, hx]

/-- Witness for C4: a non-driver is turned away from a fresh request. -/
theorem claim_result_spec_witness :
    claim (initRide 1) 7 false = (initRide 1, ClaimRes.unauthorized) :=
  (claim_result_spec (initRide 1) 7 false).1 rfl

/-- Claim C2, failing input: driver 2 claims rider 1's request and ends
it (Ok); the view state keeps `claimed_by = 2` and records no completion
flag, so a second End Ride press by driver 2 passes both checks and
returns Ok again — the code re-runs the whole completion path (a second
ride log, a second rating prompt) instead of rejecting it. -/
theorem end_ride_second_complete_ok :
    (end_ride ((claim (initRide 1) 2 true).1) 2).2 = EndRes.ok ∧
    ((end_ride ((claim (initRide 1) 2 true).1) 2).1).status = RideStatus.completed ∧
    (end_ride ((end_ride ((claim (initRide 1) 2 true).1) 2).1) 2).2 = EndRes.ok := by
  decide

/-- One action preserves the reachability invariant, never clears or
reassigns `claimed_by`, and never moves the status backwards. -/
lemma applyAct_inv_mono (s : RideState) (hinv : RideInv s) (a : RideAct) :
    RideInv (applyAct s a) ∧
    (∀ d, s.claimedBy = some d → (applyAct s a).claimedBy = some d) ∧
    statusIdx s.status ≤ statusIdx (applyAct s a).status := by
  cases a with
  | press_claim actor cap =>
    cases cap with
    | false =>
      have he : applyAct s (.press_claim actor false) = s := by
        simp [applyAct, claim]
      rw [he]
      exact ⟨hinv, fun d hd => hd, le_refl _⟩
    | true =>
      cases hx : s.claimedBy with
      | some d0 =>
        have he : applyAct s (.press_claim actor true) = s := by
          simp [applyAct, claim, hx]
        rw [he]
        exact ⟨hinv, fun d hd => by rw [hx]; exact hd, le_refl _⟩
      | none =>
        have hst := hinv hx
        have he : applyAct s (.press_claim actor true) =
            { s with claimedBy := some actor, status := .claimed, claimDisabled := true } := by
          simp [applyAct, claim, hx]
        rw [he]
        refine ⟨fun h => by simp at h, fun d hd => by simp at hd, ?_⟩
        show statusIdx s.status ≤ statusIdx RideStatus.claimed
        rw [hst]; decide
  | press_end actor =>
    cases hx : s.claimedBy with
    | none =>
      have he : applyAct s (.press_end actor) = s := by
        simp [applyAct, end_ride, hx]
      rw [he]
      exact ⟨hinv, fun d hd => by simp at hd, le_refl _⟩
    | some d0 =>
      by_cases hact : actor = d0
      · have he : applyAct s (.press_end actor) =
            { s with status := .completed, endDisabled := true } := by
          simp [applyAct, end_ride, hx, hact]
        rw [he]
        refine ⟨fun h => by simp [hx] at h, fun d hd => ?_, ?_⟩
        · show s.claimedBy = some d
          rw [hx]; exact hd
        · show statusIdx s.status ≤ statusIdx RideStatus.completed
          cases s.status <;> simp [statusIdx]
      · have he : applyAct s (.press_end actor) = s := by
          simp [applyAct, end_ride, hx, hact]
        rw [he]
        exact ⟨hinv, fun d hd => by rw [hx]; exact hd, le_refl _⟩

/-- A whole run of actions preserves the invariant, keeps an assigned
claimant, and only advances the status. -/
lemma runActs_inv_mono (acts : List RideAct) (s : RideState) (hinv : RideInv s) :
    RideInv (runActs s acts) ∧
    (∀ d, s.claimedBy = some d → (runActs s acts).claimedBy = some d) ∧
    statusIdx s.status ≤ statusIdx (runActs s acts).status := by
  induction acts generalizing s with
  | nil => exact ⟨hinv, fun d hd => hd, le_refl _⟩
  | cons a rest ih =>
    obtain ⟨h1, h2, h3⟩ := applyAct_inv_mono s hinv a
    obtain ⟨g1, g2, g3⟩ := ih (applyAct s a) h1
    refine ⟨g1, fun d hd => g2 d (h2 d hd), le_trans h3 ?_⟩
    simpa [runActs] using g3

/-- Claim C6: along any serialized sequence of claim and end actions on
a posted ride request, `claimed_by` moves only from unset to a concrete
actor id and is never cleared or reassigned afterwards, and the status
only advances along Unclaimed → Claimed → Completed, never regressing:
between any two points of any run, an assigned claimant persists
unchanged and the status rank never decreases. -/
theorem ride_lifecycle_monotone (r : ℕ) (pre post : List RideAct) :
    (∀ d, (runActs (initRide r) pre).claimedBy = some d →
      (runActs (runActs (initRide r) pre) post).claimedBy = some d) ∧
    statusIdx (runActs (initRide r) pre).status ≤
      statusIdx (runActs (runActs (initRide r) pre) post).status := by
  have h0 : RideInv (initRide r) := fun _ => rfl
  obtain ⟨h1, -, -⟩ := runActs_inv_mono pre (initRide r) h0
  obtain ⟨-, g2, g3⟩ := runActs_inv_mono post (runActs (initRide r) pre) h1
  exact ⟨g2, g3⟩

/-- A decide press on a finalized review leaves the state alone and
answers AlreadyFinalized to a reviewer, Unauthorized to anyone else. -/
lemma decide_of_finalized (s : ReviewState) (h : s.finalized = true) (b : Bool) (o : Outcome) :
    decideReq s b o = (s, if b = true then DecideRes.alreadyFinalized else DecideRes.unauthorized) := by
  cases b <;> simp [decideReq, h]

/-- Once finalized, no sequence of further decide presses changes the
review state at all. -/
lemma runDecides_of_finalized (s : ReviewState) (h : s.finalized = true)
    (ops : List (Bool × Outcome)) : runDecides s ops = s := by
  induction ops with
  | nil => rfl
  | cons p ops ih =>
    obtain ⟨b, o⟩ := p
    have h1 : (decideReq s b o).1 = s := by rw [decide_of_finalized s h b o]
    show runDecides (decideReq s b o).1 ops = s
    rw [h1, ih]

/-- Along any run, a non-finalized review still shows Pending (the only
way the decision leaves Pending is the finalizing press). -/
lemma runDecides_inv (ops : List (Bool × Outcome)) (s : ReviewState)
    (h : s.finalized = false → s.decision = .pending) :
    (runDecides s ops).finalized = false → (runDecides s ops).decision = .pending := by
  induction ops generalizing s with
  | nil => exact h
  | cons p ops ih =>
    obtain ⟨b, o⟩ := p
    show (runDecides (decideReq s b o).1 ops).finalized = false →
      (runDecides (decideReq s b o).1 ops).decision = .pending
    apply ih
    cases b with
    | false => exact h
    | true =>
      cases hf : s.finalized with
      | true => simp [decideReq, hf]
      | false => simp [decideReq, hf]

/-- Claim C3: on a reviewable request, the first decide press by a
reviewer returns Ok and fixes the recorded decision; every later press
leaves the state untouched — a reviewer is answered AlreadyFinalized
(never Ok), a non-reviewer is answered Unauthorized — and once the
decision is not Pending it never changes along any further run. -/
theorem review_decide_finality :
    (∀ o, decideReq initReview true o = (⟨true, decisionOf o⟩, DecideRes.ok)) ∧
    (∀ s b o, b = false → decideReq s b o = (s, DecideRes.unauthorized)) ∧
    (∀ s b o, s.finalized = true →
      (decideReq s b o).1 = s ∧ (decideReq s b o).2 ≠ DecideRes.ok) ∧
    (∀ s o, s.finalized = true → decideReq s true o = (s, DecideRes.alreadyFinalized)) ∧
    (∀ pre post, (runDecides initReview pre).decision ≠ Decision.pending →
      (runDecides (runDecides initReview pre) post).decision =
        (runDecides initReview pre).decision) := by
  refine ⟨fun o => rfl, fun s b o h => by simp [decideReq, h],
    fun s b o h => by cases b <;> simp [decideReq, h],
    fun s o h => by simp [decideReq, h], fun pre post h => ?_⟩
  cases hf : (runDecides initReview pre).finalized with
  | false =>
    exact absurd (runDecides_inv pre initReview (fun _ => rfl) hf) h
  | true =>
    rw [runDecides_of_finalized _ hf post]

/-- Witness for C3: reviewer one accepts a pending request; reviewer
two's later denial is answered AlreadyFinalized and the stored decision
stays Accepted. -/
theorem review_decide_finality_witness :
    decideReq initReview true Outcome.accepted =
      (⟨true, Decision.accepted⟩, DecideRes.ok) ∧
    decideReq ⟨true, Decision.accepted⟩ true Outcome.denied =
      (⟨true, Decision.accepted⟩, DecideRes.alreadyFinalized) :=
  ⟨review_decide_finality.1 Outcome.accepted,
    review_decide_finality.2.2.2.1 ⟨true, Decision.accepted⟩ Outcome.denied rfl⟩

/-- A submission against an already-submitted rating prompt never
changes the state. -/
lemma submit_of_submitted (s : RatingState) (h : s.submitted = true) (a k : ℕ) :
    (submit s a k).1 = s := by
  by_cases ha : a = s.riderId <;> simp [submit, ha, h]

/-- Once submitted, no sequence of further submissions changes the
rating state. -/
lemma runSubmits_of_submitted (s : RatingState) (h : s.submitted = true)
    (ops : List (ℕ × ℕ)) : runSubmits s ops = s := by
  induction ops with
  | nil => rfl
  | cons p ops ih =>
    obtain ⟨a, k⟩ := p
    show runSubmits (submit s a k).1 ops = s
    rw [submit_of_submitted s h a k, ih]

/-- Claim C5: a rating submission is accepted only from the prompt's own
rider (anyone else is turned away and nothing changes); the rider's
first submission returns Ok and records its score, while every
subsequent submission is rejected — the rider gets Duplicate, others get
the authorization rejection — and the recorded score stays the first
one along any further run. -/
theorem rating_submit_once :
    (∀ s a k, a ≠ s.riderId → submit s a k = (s, SubmitRes.notRider)) ∧
    (∀ r k, submit (initRating r) r k = (⟨r, true, some k⟩, SubmitRes.ok)) ∧
    (∀ s k, s.submitted = true → submit s s.riderId k = (s, SubmitRes.duplicate)) ∧
    (∀ s a k, s.submitted = true → (submit s a k).1 = s) ∧
    (∀ r k ops, (runSubmits (submit (initRating r) r k).1 ops).recorded = some k) := by
  refine ⟨fun s a k h => by simp [submit, h],
    fun r k => by simp [submit, initRating],
    fun s k h => by simp [submit, h],
    fun s a k h => submit_of_submitted s h a k,
    fun r k ops => ?_⟩
  have h2 : (submit (initRating r) r k).1 = (⟨r, true, some k⟩ : RatingState) := by
    simp [submit, initRating]
  rw [h2, runSubmits_of_submitted _ rfl ops]

/-- Witness for C5: rider 5 submits a 4, then tries a 5; the first is
accepted, the second rejected as a duplicate, the recorded score stays 4. -/
theorem rating_submit_once_witness :
    submit (initRating 5) 5 4 = (⟨5, true, some 4⟩, SubmitRes.ok) ∧
    submit ⟨5, true, some 4⟩ 5 5 = (⟨5, true, some 4⟩, SubmitRes.duplicate) :=
  ⟨rating_submit_once.2.1 5 4, rating_submit_once.2.2.1 ⟨5, true, some 4⟩ 5 rfl⟩

/-- One vote toggle keeps the two voter sets disjoint. -/
lemma toggle_disjoint (r : VoteRec) (side : VoteSide) (u : ℕ)
    (h : Disjoint r.up r.down) :
    Disjoint (toggle r side u).up (toggle r side u).down := by
  cases side with
  | up =>
    by_cases hm : u ∈ r.up
    · simp only [toggle, hm, if_true]
      exact Finset.disjoint_of_subset_left (Finset.erase_subset _ _)
        (Finset.disjoint_of_subset_right (Finset.erase_subset _ _) h)
    · simp only [toggle, hm, if_false]
      rw [Finset.disjoint_insert_left]
      exact ⟨Finset.not_mem_erase u r.down,
        Finset.disjoint_of_subset_right (Finset.erase_subset _ _) h⟩
  | down =>
    by_cases hm : u ∈ r.down
    · simp only [toggle, hm, if_true]
      exact Finset.disjoint_of_subset_left (Finset.erase_subset _ _)
        (Finset.disjoint_of_subset_right (Finset.erase_subset _ _) h)
    · simp only [toggle, hm, if_false]
      rw [Finset.disjoint_insert_right]
      exact ⟨Finset.not_mem_erase u r.up,
        Finset.disjoint_of_subset_left (Finset.erase_subset _ _) h⟩

/-- Disjointness of the voter sets survives any run of toggles. -/
lemma runToggles_disjoint (ops : List (VoteSide × ℕ)) (r : VoteRec)
    (h : Disjoint r.up r.down) :
    Disjoint (runToggles r ops).up (runToggles r ops).down := by
  induction ops generalizing r with
  | nil => exact h
  | cons p ops ih =>
    obtain ⟨side, u⟩ := p
    exact ih (toggle r side u) (toggle_disjoint r side u h)

/-- Claim C8: on every suggestion, the upvoter and downvoter sets stay
disjoint: each toggle first discards the user from the opposite side, so
toggling preserves disjointness, and from the empty initial record every
reachable vote record has disjoint sides — no user is ever counted in
both directions at once. -/
theorem vote_sides_disjoint :
    (∀ r side u, Disjoint r.up r.down →
      Disjoint (toggle r side u).up (toggle r side u).down) ∧
    (∀ ops, Disjoint (runToggles initVotes ops).up (runToggles initVotes ops).down) :=
  ⟨toggle_disjoint,
    fun ops => runToggles_disjoint ops initVotes (by simp [initVotes])⟩

/-- Witness for C8: user 1 upvotes a fresh suggestion; the sides remain
disjoint. -/
theorem vote_sides_disjoint_witness :
    Disjoint (toggle initVotes VoteSide.up 1).up (toggle initVotes VoteSide.up 1).down :=
  vote_sides_disjoint.1 initVotes VoteSide.up 1 (by simp [initVotes])

/-- Claim C9: for a user on neither side, toggling the same side twice
in a row is a round-trip: the first toggle adds the user to that side,
the second removes them, and the vote record (hence both voter sets and
both counts) returns to exactly its prior state. -/
theorem toggle_same_side_roundtrip (r : VoteRec) (side : VoteSide) (u : ℕ)
    (hu : u ∉ r.up) (hd : u ∉ r.down) :
    toggle (toggle r side u) side u = r := by
  cases side with
  | up =>
    have h1 : toggle r .up u = ⟨insert u r.up, r.down⟩ := by
      simp [toggle, hu, Finset.erase_eq_of_not_mem hd]
    rw [h1]
    have h2 : toggle (⟨insert u r.up, r.down⟩ : VoteRec) .up u = ⟨r.up, r.down⟩ := by
      simp [toggle, Finset.mem_insert_self, Finset.erase_insert hu,
        Finset.erase_eq_of_not_mem hd]
    rw [h2]
  | down =>
    have h1 : toggle r .down u = ⟨r.up, insert u r.down⟩ := by
      simp [toggle, hd, Finset.erase_eq_of_not_mem hu]
    rw [h1]
    have h2 : toggle (⟨r.up, insert u r.down⟩ : VoteRec) .down u = ⟨r.up, r.down⟩ := by
      simp [toggle, Finset.mem_insert_self, Finset.erase_insert hd,
        Finset.erase_eq_of_not_mem hu]
    rw [h2]

/-- Witness for C9: user 1 upvotes twice on a fresh suggestion and the
record returns to the empty state. -/
theorem toggle_same_side_roundtrip_witness :
    toggle (toggle initVotes VoteSide.up 1) VoteSide.up 1 = initVotes :=
  toggle_same_side_roundtrip initVotes VoteSide.up 1
    (Finset.not_mem_empty 1) (Finset.not_mem_empty 1)

/-- A button press either leaves the recorded score alone or records the
pressed button's constant score. -/
lemma pressButton_recorded (s : RatingState) (a : ℕ) (b : RatingButton) :
    (pressButton s a b).1.recorded = s.recorded ∨
    (pressButton s a b).1.recorded = some (buttonScore b) := by
  by_cases h1 : a = s.riderId
  · by_cases h2 : s.submitted = true
    · left; simp [pressButton, submit, h1, h2]
    · right; simp [pressButton, submit, h1, h2]
  · left; simp [pressButton, submit, h1]

/-- Along any run of button presses, a recorded score is in 1..5. -/
lemma runPresses_recorded_bounded (ops : List (ℕ × RatingButton)) (s : RatingState)
    (h : ∀ k, s.recorded = some k → 1 ≤ k ∧ k ≤ 5) :
    ∀ k, (runPresses s ops).recorded = some k → 1 ≤ k ∧ k ≤ 5 := by
  induction ops generalizing s with
  | nil => exact h
  | cons p ops ih =>
    obtain ⟨a, b⟩ := p
    show ∀ k, (runPresses (pressButton s a b).1 ops).recorded = some k → 1 ≤ k ∧ k ≤ 5
    apply ih
    intro k hk
    rcases pressButton_recorded s a b with hc | hc
    · exact h k (hc ▸ hk)
    · rw [hc] at hk
      obtain rfl : buttonScore b = k := Option.some.inj hk
      cases b <;> decide

/-- Claim C10: the five rating buttons pass only the constants 1..5, and
they are the sole entry points to the submission routine, so every score
ever recorded through the public rating interface lies in 1..5 — an
out-of-range score is unrepresentable and no out-of-range rejection path
exists to be reached. -/
theorem rating_scores_bounded :
    (∀ b, 1 ≤ buttonScore b ∧ buttonScore b ≤ 5) ∧
    (∀ r ops k, (runPresses (initRating r) ops).recorded = some k →
      1 ≤ k ∧ k ≤ 5) := by
  refine ⟨fun b => by cases b <;> decide, fun r ops k hk => ?_⟩
  exact runPresses_recorded_bounded ops (initRating r)
    (fun k h => by simp [initRating] at h) k hk

/-- Witness for C10: rider 3 presses button 4; the recorded score is 4,
which lies in 1..5. -/
theorem rating_scores_bounded_witness :
    (runPresses (initRating 3) [(3, RatingButton.b4)]).recorded = some 4 ∧
    (1 ≤ 4 ∧ 4 ≤ 5) :=
  ⟨by decide, rating_scores_bounded.2 3 [(3, RatingButton.b4)] 4 (by decide)⟩

/-- Reading back one serialized ride entry returns it with the rest of
the file untouched. -/
lemma decEntry_enc (e : RideEntry) (r : List Tok) :
    decEntry (encEntry e ++ r) = some (e, r) := rfl

/-- Reading back a serialized entry list returns it in order. -/
lemma decEntries_enc (l : List RideEntry) (r : List Tok) :
    decEntries l.length ((l.foldr (fun e acc => encEntry e ++ acc) []) ++ r) = some (l, r) := by
  induction l with
  | nil => rfl
  | cons e l ih =>
    have h1 : ((e :: l).foldr (fun e acc => encEntry e ++ acc) []) ++ r
        = encEntry e ++ ((l.foldr (fun e acc => encEntry e ++ acc) []) ++ r) := by
      simp [List.append_assoc]
    rw [h1]
    show decEntries (l.length + 1) _ = _
    simp [decEntries, decEntry_enc, ih]

/-- Reading back a serialized list of naturals returns it in order. -/
lemma decNats_enc (l : List ℕ) (r : List Tok) :
    decNats l.length (l.map Tok.tnat ++ r) = some (l, r) := by
  induction l with
  | nil => rfl
  | cons k l ih =>
    show decNats (l.length + 1) _ = _
    simp [decNats, decNat, ih]

/-- Reading back a serialized list of strings returns it in order. -/
lemma decStrs_enc (l : List String) (r : List Tok) :
    decStrs l.length (l.map Tok.tstr ++ r) = some (l, r) := by
  induction l with
  | nil => rfl
  | cons s l ih =>
    show decStrs (l.length + 1) _ = _
    simp [decStrs, decStr, ih]

/-- Reading back a serialized optional string returns it. -/
lemma decOptStr_enc (o : Option String) (r : List Tok) :
    decOptStr (encOptStr o ++ r) = some (o, r) := by
  cases o <;> rfl

/-- Reading back one serialized profile record returns it. -/
lemma decRecord_enc (p : ProfileRecord) (r : List Tok) :
    decRecord (encRecord p ++ r) = some (p, r) := by
  obtain ⟨role, h, ra, fl, no⟩ := p
  show decRecord (Tok.tstr role ::
    ((encEntries h ++ encNats ra ++ encOptStr fl ++ encStrs no) ++ r)) = _
  have hr : (encEntries h ++ encNats ra ++ encOptStr fl ++ encStrs no) ++ r
      = encEntries h ++ (encNats ra ++ (encOptStr fl ++ (encStrs no ++ r))) := by
    simp [List.append_assoc]
  rw [hr]
  show decRecord (Tok.tstr role :: (Tok.tnat h.length ::
    ((h.foldr (fun e acc => encEntry e ++ acc) []) ++
      (encNats ra ++ (encOptStr fl ++ (encStrs no ++ r)))))) = _
  simp [decRecord, decStr, decNat, decEntries_enc, encNats, decNats_enc,
    decOptStr_enc, encStrs, decStrs_enc]

/-- Reading back a serialized list of keyed records returns it. -/
lemma decPairs_enc (l : List (ℕ × ProfileRecord)) (r : List Tok) :
    decPairs l.length ((l.foldr (fun p acc => encPair p ++ acc) []) ++ r) = some (l, r) := by
  induction l with
  | nil => rfl
  | cons p l ih =>
    obtain ⟨x, rec⟩ := p
    have h1 : (((x, rec) :: l).foldr (fun p acc => encPair p ++ acc) []) ++ r
        = Tok.tnat x :: (encRecord rec ++ ((l.foldr (fun p acc => encPair p ++ acc) []) ++ r)) := by
      simp [encPair, List.append_assoc]
    rw [h1]
    show decPairs (l.length + 1) _ = _
    simp [decPairs, decNat, decRecord_enc, ih]

/-- Reading back the whole serialized document reproduces it exactly. -/
lemma decStore_enc (st : ProfileStore) : decStore (encStore st) = some st := by
  have h2 := decPairs_enc st ([] : List Tok)
  rw [List.append_nil] at h2
  show decStore (Tok.tnat (List.length st) ::
    (st.foldr (fun p acc => encPair p ++ acc) [])) = _
  simp [decStore, decNat, h2]

/-- Claim C7 (the ProfileStore is absent from src/ and is modelled from
spec §4.4 and §6): every mutation persists by serializing the whole
document to a temporary file and renaming it over the canonical file, so
reloading after a persist reproduces the store exactly — in particular,
appending ride entries e1, e2, e3 for a subject yields history
[e1, e2, e3] in order and the reloaded record recomputes the same
aggregate as the in-memory one — and an interruption between the
temporary-file write and the rename leaves the canonical file
byte-identical to its pre-write contents. -/
theorem profile_store_roundtrip_and_crash :
    (∀ fs st, reload (persist fs st) = some st) ∧
    (∀ x role e1 e2 e3,
      lookupRecord
        (appendHistory (appendHistory (appendHistory ([] : ProfileStore) x role e1)
          x role e2) x role e3) x
        = some ⟨role, [e1, e2, e3], [], none, []⟩) ∧
    (∀ fs st x, ∃ stR, reload (persist fs st) = some stR ∧
      (lookupRecord stR x).map aggregate = (lookupRecord st x).map aggregate) ∧
    (∀ fs d, (writeTemp fs d).canonical = fs.canonical) := by
  have hrt : ∀ (fs : FS) (st : ProfileStore), reload (persist fs st) = some st := by
    intro fs st
    show decStore (renameTemp (writeTemp fs (encStore st))).canonical = some st
    show decStore (encStore st) = some st
    exact decStore_enc st
  refine ⟨hrt, fun x role e1 e2 e3 => ?_, fun fs st x => ⟨st, hrt fs st, rfl⟩,
    fun fs d => rfl⟩
  simp [appendHistory, updateRecord, lookupRecord, emptyRecord]

/-- Witness for C7: a concrete store with one subject and three history
entries survives a persist-and-reload byte-for-byte. -/
theorem profile_store_roundtrip_and_crash_witness :
    reload (persist ⟨[], none⟩
      [(4, ⟨"driver", [⟨"2024-01-01", 9, "airport"⟩], [5], none, []⟩)])
      = some [(4, ⟨"driver", [⟨"2024-01-01", 9, "airport"⟩], [5], none, []⟩)] :=
  profile_store_roundtrip_and_crash.1 ⟨[], none⟩
    [(4, ⟨"driver", [⟨"2024-01-01", 9, "airport"⟩], [5], none, []⟩)]

/-- Witness for C6: after driver 2 claims and ends rider 1's request,
the claimant is still driver 2 and the status has only advanced. -/
theorem ride_lifecycle_monotone_witness :
    (runActs (runActs (initRide 1) [RideAct.press_claim 2 true])
      [RideAct.press_end 2]).claimedBy = some 2 ∧
    statusIdx (runActs (initRide 1) [RideAct.press_claim 2 true]).status ≤
      statusIdx (runActs (runActs (initRide 1) [RideAct.press_claim 2 true])
        [RideAct.press_end 2]).status :=
  ⟨(ride_lifecycle_monotone 1 [RideAct.press_claim 2 true] [RideAct.press_end 2]).1 2
      (by decide),
    (ride_lifecycle_monotone 1 [RideAct.press_claim 2 true] [RideAct.press_end 2]).2⟩
